import Mathlib

set_option maxHeartbeats 1000000

/-!
Shallow embedding of the poll/suggestion lifecycle engine of the `artistic`
repository: the vote state machine and scheduler of `src/handlers.rs`, the
status (de)serialization of `src/types.rs` and `src/database.rs`, and the
suggestion picker query of `src/database.rs`. Machine integers (`u64`
identifiers, `usize` thresholds, byte values) are modelled as `Nat`; strings
are modelled as lists of character codes (`List Nat`); fallible store calls
are modelled by explicit success flags and `Option` results.
-/

/-- Poll status from `types.rs` (`enum PollStatus`). Voter identities (`u64`
user ids) are naturals, and the `HashSet<UserId>` of votes is modelled as the
list of its elements in iteration order (duplicate-free by construction). -/
inductive PollStatus where
  | pending (votes : List Nat)
  | completed
  | revoked
  | vetoed
deriving DecidableEq

/-- User-facing response contents of the upvote, revoke and veto branches of
`handle_poll_interaction` in `handlers.rs`, one constructor per distinct
literal string; `isRevokedMsg` and `isVetoedMsg` are each shared by two
branches exactly as the corresponding strings are in the source. -/
inductive Outcome where
  | voteAdded
  | alreadyVoted
  | alreadyCompleted
  | isRevokedMsg
  | isVetoedMsg
  | selfVote
  | revokedOk
  | alreadyRevoked
  | onlyAuthor
  | vetoedOk
  | alreadyVetoed
  | onlyFacilitators
deriving DecidableEq

/-- Matches the `Pending { .. } | Completed` arm shared by the revoke and veto
branches of `handle_poll_interaction`. -/
def PollStatus.active : PollStatus → Bool
  | .pending _ => true
  | .completed => true
  | .revoked => false
  | .vetoed => false

/-- Status transition and response of the upvote branch of
`handle_poll_interaction` (`handlers.rs`): the author may not vote; a vote on
a pending poll by a new voter is inserted and the poll completes when the new
count reaches `poll_threshold`; re-votes and votes on non-pending polls are
rejected without a state change. -/
def upvote (threshold author actor : Nat) (status : PollStatus) :
    PollStatus × Outcome :=
  if actor ≠ author then
    match status with
    | .pending votes =>
      if actor ∈ votes then (.pending votes, .alreadyVoted)
      else if threshold ≤ votes.length + 1 then (.completed, .voteAdded)
      else (.pending (actor :: votes), .voteAdded)
    | .completed => (.completed, .alreadyCompleted)
    | .revoked => (.revoked, .isRevokedMsg)
    | .vetoed => (.vetoed, .isVetoedMsg)
  else (status, .selfVote)

/-- Status transition and response of the revoke branch of
`handle_poll_interaction` (`handlers.rs`). -/
def revoke (author actor : Nat) (status : PollStatus) : PollStatus × Outcome :=
  if actor = author then
    match status with
    | .pending _ => (.revoked, .revokedOk)
    | .completed => (.revoked, .revokedOk)
    | .revoked => (.revoked, .alreadyRevoked)
    | .vetoed => (.vetoed, .isVetoedMsg)
  else (status, .onlyAuthor)

/-- Status transition and response of the veto branch of
`handle_poll_interaction` (`handlers.rs`); `fac` is the result of the
facilitator-role check. -/
def veto (fac : Bool) (status : PollStatus) : PollStatus × Outcome :=
  if fac then
    match status with
    | .pending _ => (.vetoed, .vetoedOk)
    | .completed => (.vetoed, .vetoedOk)
    | .revoked => (.revoked, .isRevokedMsg)
    | .vetoed => (.vetoed, .alreadyVetoed)
  else (status, .onlyFacilitators)

/-- Resulting status of a sequence of upvote interactions applied in order. -/
def runUpvotes (threshold author : Nat) (status : PollStatus)
    (actors : List Nat) : PollStatus :=
  actors.foldl (fun st a => (upvote threshold author a st).1) status

/-- Timestamps are minutes since an epoch taken at a Monday 00:00 UTC, so the
weekday index matches chrono `num_days_from_monday` (0 = Monday, 2 =
Wednesday). -/
def weekdayOf (d : Nat) : Nat := d / 1440 % 7

/-- chrono `Weekday::days_since`: days forward from weekday `w2` to `w1`. -/
def days_since (w1 w2 : Nat) : Nat := (w1 + 7 - w2) % 7

/-- `next_weekday_at` from `handlers.rs`: next instance of `weekday` at `time`
(minutes within the day) from `now`, including today. -/
def next_weekday_at (now weekday time : Nat) : Nat :=
  let today_at := now / 1440 * 1440 + time
  if weekdayOf today_at = weekday ∧ now < today_at then
    today_at
  else
    let d0 := days_since weekday (weekdayOf today_at)
    let day_offset := d0 + (if d0 = 0 then 1 else 0) * 7
    today_at + day_offset * 1440

/-- Startup load of the cadence flag in `post_announcements` (`handlers.rs`):
the 1-byte buffer starts as `[0]`, `read_exact` overwrites it when the file
holds a byte (its error is ignored), and the flag is `byte % 2 == 0`; `none`
models an absent or empty `biweekly_flag.bin`. -/
def load_biweekly_flag (fileByte : Option Nat) : Bool :=
  fileByte.getD 0 % 2 == 0

/-- Byte persisted by `post_announcements`:
`fs::write("biweekly_flag.bin", [biweekly_flag as u8])`. -/
def store_biweekly_flag (flag : Bool) : Nat := if flag then 1 else 0

/-- Categories announced in one scheduler cycle, in loop-body order: external
(`false`) always, internal (`true`) exactly when the cadence flag is set. -/
def cycleCategories (flag : Bool) : List Bool :=
  if flag then [false, true] else [false]

/-- C5: evaluation of the cadence-flag code at the decisive inputs. With the
flag file absent the code starts with the flag set and the first cycle
announces both categories, and decoding a persisted byte yields the negation
of the flag value that was persisted — the claimed default (`false`, external
only) and the claimed round-trip both fail on the code. -/
theorem c5_flag_decode_eval :
    load_biweekly_flag none = true ∧
    cycleCategories (load_biweekly_flag none) = [false, true] ∧
    load_biweekly_flag (some (store_biweekly_flag true)) = false ∧
    load_biweekly_flag (some (store_biweekly_flag false)) = true :=
  ⟨rfl, rfl, rfl, rfl⟩

/-- C3: `Revoke` succeeds exactly when the actor is the submitter and the
status is pending or completed, `Veto` exactly when the actor passes the
facilitator check and the status is pending or completed; every other
combination leaves the status unchanged and yields a non-success outcome;
`Revoked` and `Vetoed` are terminal under all three actions, and a completed
poll never returns to pending under upvotes. -/
theorem c3_revoke_veto_transitions (author actor th : Nat) (fac : Bool)
    (s : PollStatus) :
    (revoke author actor s = (.revoked, .revokedOk) ↔
      (actor = author ∧ s.active = true)) ∧
    (¬(actor = author ∧ s.active = true) →
      (revoke author actor s).1 = s ∧ (revoke author actor s).2 ≠ .revokedOk) ∧
    (veto fac s = (.vetoed, .vetoedOk) ↔ (fac = true ∧ s.active = true)) ∧
    (¬(fac = true ∧ s.active = true) →
      (veto fac s).1 = s ∧ (veto fac s).2 ≠ .vetoedOk) ∧
    ((s = .revoked ∨ s = .vetoed) →
      (upvote th author actor s).1 = s ∧ (revoke author actor s).1 = s ∧
        (veto fac s).1 = s) ∧
    (upvote th author actor .completed).1 = .completed := by
  by_cases h : actor = author <;> cases fac <;> cases s <;>
    simp [revoke, veto, upvote, PollStatus.active, h]

/-- C3 witness: a submitter revoke of a pending poll succeeds, and a
non-submitter revoke of a completed poll leaves it completed. -/
theorem c3_witness :
    revoke 5 5 (PollStatus.pending []) = (PollStatus.revoked, Outcome.revokedOk) ∧
    (revoke 5 6 PollStatus.completed).1 = PollStatus.completed :=
  ⟨(c3_revoke_veto_transitions 5 5 2 false (PollStatus.pending [])).1.mpr
      ⟨rfl, rfl⟩,
    ((c3_revoke_veto_transitions 5 6 2 false PollStatus.completed).2.1
      (by decide)).1⟩

/-- C7: when now is on the configured weekday before the configured time the
scheduler fires today at that time; otherwise it fires at that time on the
next date with that weekday, between 1 and 7 days ahead; in particular the
three Wednesday-14:00 examples (from Wednesday 13:00, Wednesday 15:00 and
Thursday 09:00) evaluate as the claim states. -/
theorem c7_next_weekday_at (now wd t : Nat) (hw : wd < 7) (ht : t < 1440) :
    ((weekdayOf now = wd ∧ now % 1440 < t) →
      next_weekday_at now wd t = now / 1440 * 1440 + t) ∧
    (¬(weekdayOf now = wd ∧ now % 1440 < t) →
      weekdayOf (next_weekday_at now wd t) = wd ∧
      next_weekday_at now wd t % 1440 = t ∧
      1 ≤ next_weekday_at now wd t / 1440 - now / 1440 ∧
      next_weekday_at now wd t / 1440 - now / 1440 ≤ 7) ∧
    next_weekday_at (2 * 1440 + 780) 2 840 = 2 * 1440 + 840 ∧
    next_weekday_at (2 * 1440 + 900) 2 840 = 9 * 1440 + 840 ∧
    next_weekday_at (3 * 1440 + 540) 2 840 = 9 * 1440 + 840 := by
  refine ⟨fun h => ?_, fun h => ?_, by decide, by decide, by decide⟩
  · simp only [next_weekday_at, weekdayOf, days_since] at *
    split_ifs <;> omega
  · simp only [next_weekday_at, weekdayOf, days_since] at *
    split_ifs <;> omega

/-- C7 witness: from Wednesday 13:00 the theorem yields Wednesday 14:00 of the
same day. -/
theorem c7_witness :
    next_weekday_at (2 * 1440 + 780) 2 840 = (2 * 1440 + 780) / 1440 * 1440 + 840 :=
  (c7_next_weekday_at (2 * 1440 + 780) 2 840 (by decide) (by decide)).1 (by decide)

/-- C10: the computed fire time is strictly after `now` for every input, and
when now is exactly the configured weekday at exactly the configured time the
result is the occurrence 7 days later, so converting `next_date - now` to a
non-negative duration cannot fail. -/
theorem c10_next_strictly_future (now wd t : Nat) (hw : wd < 7) (ht : t < 1440) :
    now < next_weekday_at now wd t ∧
    (weekdayOf now = wd ∧ now % 1440 = t →
      next_weekday_at now wd t = now + 7 * 1440) := by
  simp only [next_weekday_at, weekdayOf, days_since]
  split_ifs <;> omega

/-- C10 witness: from Monday 00:00 the next Wednesday 14:00 is strictly in the
future. -/
theorem c10_witness : (0 : Nat) < next_weekday_at 0 2 840 :=
  (c10_next_strictly_future 0 2 840 (by decide) (by decide)).1

/-- Decimal digit value of a character code, as used by Rust `str::parse`
when consuming one character of a `u64` literal. -/
def charToDigit (c : Nat) : Option Nat :=
  if 48 ≤ c ∧ c ≤ 57 then some (c - 48) else none

/-- Character codes of the decimal rendering of a `u64`
(`UserId::to_string`). -/
def natToChars (n : Nat) : List Nat :=
  if n = 0 then [48] else (Nat.digits 10 n).reverse.map (fun d => 48 + d)

/-- Rust `str::parse::<u64>` restricted to the plain-decimal inputs the store
can contain: fails on the empty string and on any non-digit character. -/
def parseNatChars (cs : List Nat) : Option Nat :=
  if cs = [] then none
  else
    cs.foldl (fun acc c => acc.bind fun a => (charToDigit c).map fun d => a * 10 + d)
      (some 0)

theorem foldl_digit_codes (ds : List Nat) (a : Nat) (h : ∀ d ∈ ds, d < 10) :
    (ds.map (fun d => 48 + d)).foldl
        (fun acc c => acc.bind fun a => (charToDigit c).map fun d => a * 10 + d)
        (some a) =
      some (ds.foldl (fun a d => a * 10 + d) a) := by
  induction ds generalizing a with
  | nil => rfl
  | cons d ds ih =>
    have hd : d < 10 := h d (by simp)
    have hcd : charToDigit (48 + d) = some d := by
      simp only [charToDigit]
      rw [if_pos (by omega)]
      congr 1
      omega
    simp only [List.map_cons, List.foldl_cons, Option.bind_some, hcd, Option.map_some]
    exact ih (a * 10 + d) (fun x hx => h x (by simp [hx]))

theorem foldr_eq_ofDigits (ds : List Nat) :
    ds.foldr (fun d a => a * 10 + d) 0 = Nat.ofDigits 10 ds := by
  induction ds with
  | nil => simp [Nat.ofDigits_nil]
  | cons d ds ih =>
    simp only [List.foldr_cons, ih, Nat.ofDigits_cons]
    ring

/-- Round-trip of the decimal codec: parsing the rendering of `n` gives `n`
back. -/
theorem parseNatChars_natToChars (n : Nat) :
    parseNatChars (natToChars n) = some n := by
  by_cases hn : n = 0
  · subst hn; rfl
  · have hne : Nat.digits 10 n ≠ [] := Nat.digits_ne_nil_iff_ne_zero.mpr hn
    have hlt : ∀ d ∈ (Nat.digits 10 n).reverse, d < 10 := by
      intro d hd
      exact Nat.digits_lt_base (by norm_num) (List.mem_reverse.mp hd)
    simp only [natToChars, if_neg hn, parseNatChars]
    rw [if_neg (by simpa using hne)]
    rw [foldl_digit_codes _ 0 hlt, List.foldl_reverse]
    rw [foldr_eq_ofDigits, Nat.ofDigits_digits]

theorem natToChars_ne_nil (n : Nat) : natToChars n ≠ [] := by
  by_cases hn : n = 0
  · subst hn; simp [natToChars]
  · have hne : Nat.digits 10 n ≠ [] := Nat.digits_ne_nil_iff_ne_zero.mpr hn
    simp [natToChars, hn, hne]

theorem natToChars_no_comma (n : Nat) : 44 ∉ natToChars n := by
  by_cases hn : n = 0
  · subst hn; simp [natToChars]
  · simp only [natToChars, if_neg hn]
    intro hmem
    obtain ⟨d, _, hd⟩ := List.mem_map.mp hmem
    omega

/-- Helper for splitting on commas (code 44): returns the chunk before the
first comma and the list of chunks after each comma. -/
def splitCommaAux : List Nat → List Nat × List (List Nat)
  | [] => ([], [])
  | c :: cs =>
    let r := splitCommaAux cs
    if c = 44 then ([], r.1 :: r.2) else (c :: r.1, r.2)

/-- Rust `str::split(",")`: always at least one (possibly empty) chunk. -/
def splitComma (s : List Nat) : List (List Nat) :=
  (splitCommaAux s).1 :: (splitCommaAux s).2

/-- Rust `str::split_terminator(",")` as used by `PollStatus::parse`: like
`split(",")` but without the final empty chunk a trailing separator (or an
empty string) would produce. -/
def splitTerm (s : List Nat) : List (List Nat) :=
  let ps := splitComma s
  if ps.getLast? = some [] then ps.dropLast else ps

/-- Rust `Itertools::join(",")` over the rendered voter ids, as built by
`update_poll_status` in `database.rs`. -/
def joinComma : List (List Nat) → List Nat
  | [] => []
  | [x] => x
  | x :: xs => x ++ 44 :: joinComma xs

theorem splitCommaAux_no_comma (t : List Nat) (h : 44 ∉ t) :
    splitCommaAux t = (t, []) := by
  induction t with
  | nil => rfl
  | cons c cs ih =>
    have hc : c ≠ 44 := fun hc => h (by simp [hc])
    simp only [splitCommaAux, ih (fun hm => h (by simp [hm])), if_neg hc]

theorem splitCommaAux_append (t r : List Nat) (h : 44 ∉ t) :
    splitCommaAux (t ++ 44 :: r) =
      (t, (splitCommaAux r).1 :: (splitCommaAux r).2) := by
  induction t with
  | nil => simp [splitCommaAux]
  | cons c cs ih =>
    have hc : c ≠ 44 := fun hc => h (by simp [hc])
    simp [splitCommaAux, ih (fun hm => h (by simp [hm])), if_neg hc]

theorem splitComma_joinComma (ts : List (List Nat)) (hne : ts ≠ [])
    (h : ∀ t ∈ ts, 44 ∉ t) : splitComma (joinComma ts) = ts := by
  induction ts with
  | nil => exact absurd rfl hne
  | cons t ts ih =>
    cases ts with
    | nil =>
      simp only [joinComma, splitComma,
        splitCommaAux_no_comma t (h t (by simp))]
    | cons t' ts' =>
      have ih' : splitComma (joinComma (t' :: ts')) = t' :: ts' :=
        ih (by simp) (fun x hx => h x (List.mem_cons_of_mem _ hx))
      have hj : joinComma (t :: t' :: ts') = t ++ 44 :: joinComma (t' :: ts') := rfl
      simp only [splitComma] at ih' ⊢
      rw [hj, splitCommaAux_append t _ (h t (by simp))]
      rw [List.cons_inj_right]
      exact ih'

/-- Splitting recovers the joined chunks when every chunk is nonempty and
comma-free (the shape `update_poll_status` always writes). -/
theorem splitTerm_joinComma (ts : List (List Nat))
    (h : ∀ t ∈ ts, t ≠ [] ∧ 44 ∉ t) : splitTerm (joinComma ts) = ts := by
  cases ts with
  | nil => rfl
  | cons t ts' =>
    have hsplit := splitComma_joinComma (t :: ts') (by simp)
      (fun x hx => (h x hx).2)
    have hlast : ¬((t :: ts').getLast? = some []) := by
      intro hl
      have hmem : ([] : List Nat) ∈ (t :: ts').getLast? := hl
      obtain ⟨hh, heq⟩ := List.mem_getLast?_eq_getLast hmem
      have := List.getLast_mem hh
      rw [← heq] at this
      exact (h [] this).1 rfl
    simp only [splitTerm, hsplit, if_neg hlast]

/-- The `.map(|id| id.parse().unwrap()).collect()` step of `PollStatus::parse`
over the split chunks: `none` models a panic of the `unwrap` on any chunk
that does not parse as a `u64`. -/
def parseAll : List (List Nat) → Option (List Nat)
  | [] => some []
  | t :: ts =>
    match parseNatChars t, parseAll ts with
    | some n, some ns => some (n :: ns)
    | _, _ => none

/-- Result of `PollStatus::parse` (`types.rs`): a parsed status, the
`Err(eyre!("invalid poll status"))` fallthrough, or a panic of the voter-id
`unwrap`. -/
inductive ParseResult where
  | ok (s : PollStatus)
  | invalid
  | panicked
deriving DecidableEq

/-- `PollStatus::parse` (`types.rs`): status code plus optional comma-joined
vote-list string. -/
def PollStatus.parse (status : Nat) (votes : Option (List Nat)) : ParseResult :=
  match status, votes with
  | 0, some vs =>
    match parseAll (splitTerm vs) with
    | some ids => .ok (.pending ids)
    | none => .panicked
  | 0, none => .ok (.pending [])
  | 1, none => .ok .completed
  | 2, none => .ok .revoked
  | 3, none => .ok .vetoed
  | _, _ => .invalid

/-- Store representation written by `update_poll_status` (`database.rs`):
status code plus, for a pending poll, the comma-joined decimal voter ids in
iteration order. -/
def statusRepr : PollStatus → Nat × Option (List Nat)
  | .pending votes => (0, some (joinComma (votes.map natToChars)))
  | .completed => (1, none)
  | .revoked => (2, none)
  | .vetoed => (3, none)

theorem parseAll_map_natToChars (l : List Nat) :
    parseAll (l.map natToChars) = some l := by
  induction l with
  | nil => rfl
  | cons n ns ih =>
    simp only [List.map_cons, parseAll, parseNatChars_natToChars, ih]

theorem parseAll_eq_none_iff (ts : List (List Nat)) :
    parseAll ts = none ↔ ∃ t ∈ ts, parseNatChars t = none := by
  induction ts with
  | nil => simp [parseAll]
  | cons t ts ih =>
    simp only [parseAll]
    cases hp : parseNatChars t with
    | none => simp [hp]
    | some n =>
      cases hq : parseAll ts with
      | none =>
        simp only [true_iff]
        obtain ⟨x, hx, hxn⟩ := ih.mp hq
        exact ⟨x, List.mem_cons_of_mem _ hx, hxn⟩
      | some ns =>
        constructor
        · intro hcontra
          exact Option.noConfusion hcontra
        · rintro ⟨x, hx, hxn⟩
          rcases List.mem_cons.mp hx with rfl | hx'
          · rw [hp] at hxn
            exact Option.noConfusion hxn
          · have h2 := ih.mpr ⟨x, hx', hxn⟩
            rw [hq] at h2
            exact Option.noConfusion h2

/-- C8: serializing a pending vote set and parsing it back reproduces the
same set of voter identities for every iteration order; completed, revoked
and vetoed polls serialize to status codes 1, 2, 3 with no vote list; and a
non-pending code with a non-empty vote list, or any code above 3, parses to
the invalid-status error. -/
theorem c8_status_roundtrip :
    (∀ l : List Nat,
      PollStatus.parse (statusRepr (.pending l)).1 (statusRepr (.pending l)).2 =
        .ok (.pending l)) ∧
    statusRepr .completed = (1, none) ∧
    statusRepr .revoked = (2, none) ∧
    statusRepr .vetoed = (3, none) ∧
    (∀ c v, (c = 1 ∨ c = 2 ∨ c = 3) → v ≠ [] →
      PollStatus.parse c (some v) = .invalid) ∧
    (∀ c v, 3 < c → PollStatus.parse c v = .invalid) := by
  refine ⟨fun l => ?_, rfl, rfl, rfl, fun c v hc _ => ?_, fun c v hc => ?_⟩
  · have htok : ∀ t ∈ l.map natToChars, t ≠ [] ∧ 44 ∉ t := by
      intro t ht
      obtain ⟨n, _, rfl⟩ := List.mem_map.mp ht
      exact ⟨natToChars_ne_nil n, natToChars_no_comma n⟩
    simp only [statusRepr, PollStatus.parse, splitTerm_joinComma _ htok,
      parseAll_map_natToChars]
  · rcases hc with rfl | rfl | rfl <;> rfl
  · obtain ⟨m, rfl⟩ : ∃ m, c = m + 4 := ⟨c - 4, by omega⟩
    cases v <;> rfl

/-- C8 witness: the round-trip at the vote set written as 7 then 5, the
rejection of code 1 with the non-empty list "0", and the rejection of
code 9. -/
theorem c8_witness :
    PollStatus.parse (statusRepr (.pending [7, 5])).1
        (statusRepr (.pending [7, 5])).2 = .ok (.pending [7, 5]) ∧
    PollStatus.parse 1 (some [48]) = .invalid ∧
    PollStatus.parse 9 none = .invalid :=
  ⟨c8_status_roundtrip.1 [7, 5],
    c8_status_roundtrip.2.2.2.2.1 1 [48] (Or.inl rfl) (by decide),
    c8_status_roundtrip.2.2.2.2.2 9 none (by decide)⟩

/-- C9: for status code 0 with a vote-list string, `PollStatus::parse`
panics (rather than returning the invalid-status error) exactly when some
comma-separated chunk fails to parse as an unsigned integer; in particular
on the chunk "abc" it panics and does not return the error. -/
theorem c9_parse_panics :
    (∀ s, PollStatus.parse 0 (some s) = .panicked ↔
      ∃ t ∈ splitTerm s, parseNatChars t = none) ∧
    PollStatus.parse 0 (some [97, 98, 99]) = .panicked ∧
    PollStatus.parse 0 (some [97, 98, 99]) ≠ .invalid := by
  refine ⟨fun s => ?_, by decide, by decide⟩
  rw [← parseAll_eq_none_iff]
  simp only [PollStatus.parse]
  cases parseAll (splitTerm s) <;> simp

/-- C9 witness: on the single non-numeric chunk "a" the parser panics. -/
theorem c9_witness : PollStatus.parse 0 (some [97]) = ParseResult.panicked :=
  (c9_parse_panics.1 [97]).mpr ⟨[97], by decide, by decide⟩

theorem upvote_pending_fresh (t a b : Nat) (v : List Nat) (hne : b ≠ a)
    (hnm : b ∉ v) :
    upvote t a b (.pending v) =
      if t ≤ v.length + 1 then (.completed, .voteAdded)
      else (.pending (b :: v), .voteAdded) := by
  simp only [upvote, if_pos hne, if_neg hnm]

theorem upvote_completed_other (t a b : Nat) (hne : b ≠ a) :
    upvote t a b .completed = (.completed, .alreadyCompleted) := by
  simp only [upvote, if_pos hne]

theorem getElem_not_mem_take {l : List Nat} (hl : l.Nodup) (k : Nat)
    (hk : k < l.length) : l[k] ∉ l.take k := by
  intro hmem
  obtain ⟨i, hi, hieq⟩ := List.mem_take_iff_getElem.mp hmem
  have hik : i = k := hl.getElem_inj_iff.mp hieq
  omega

theorem getElem_fresh (l₀ actors : List Nat) (hnd : actors.Nodup)
    (hdisj : ∀ a ∈ actors, a ∉ l₀) (k : Nat) (hk : k < actors.length) :
    actors[k] ∉ (actors.take k).reverse ++ l₀ := by
  intro hmem
  rcases List.mem_append.mp hmem with hm | hm
  · exact getElem_not_mem_take hnd k hk (List.mem_reverse.mp hm)
  · exact hdisj _ (List.getElem_mem hk) hm

theorem runUpvotes_take_succ (threshold author : Nat) (s : PollStatus)
    (actors : List Nat) (k : Nat) (hk : k < actors.length) :
    runUpvotes threshold author s (actors.take (k + 1)) =
      (upvote threshold author actors[k]
        (runUpvotes threshold author s (actors.take k))).1 := by
  have h1 : actors.take (k + 1) = actors.take k ++ [actors[k]] := by
    rw [List.take_succ, List.getElem?_eq_getElem hk]
    rfl
  rw [runUpvotes, h1, List.foldl_append]
  rfl

theorem runUpvotes_formula (threshold author : Nat) (l₀ actors : List Nat)
    (hnd : actors.Nodup) (hna : author ∉ actors)
    (hdisj : ∀ a ∈ actors, a ∉ l₀) (hlen : l₀.length < threshold) :
    ∀ k, k ≤ actors.length →
      runUpvotes threshold author (.pending l₀) (actors.take k) =
        if l₀.length + k < threshold then
          PollStatus.pending ((actors.take k).reverse ++ l₀)
        else .completed := by
  intro k
  induction k with
  | zero =>
    intro _
    rw [if_pos (by omega)]
    simp [runUpvotes]
  | succ k ih =>
    intro hk1
    have hk : k < actors.length := by omega
    have ihk := ih (by omega)
    have hane : actors[k] ≠ author := fun h => hna (h ▸ List.getElem_mem hk)
    have hvlen : ((actors.take k).reverse ++ l₀).length = k + l₀.length := by
      simp [List.length_take, min_eq_left (le_of_lt hk)]
    rw [runUpvotes_take_succ threshold author _ actors k hk, ihk]
    by_cases hc : l₀.length + k < threshold
    · rw [if_pos hc,
        upvote_pending_fresh _ _ _ _ hane (getElem_fresh l₀ actors hnd hdisj k hk)]
      by_cases hc2 : threshold ≤ ((actors.take k).reverse ++ l₀).length + 1
      · rw [if_pos hc2, if_neg (by omega)]
      · rw [if_neg hc2, if_pos (by omega)]
        have : (actors.take (k + 1)).reverse =
            actors[k] :: (actors.take k).reverse := by
          rw [List.take_succ, List.getElem?_eq_getElem hk]
          simp
        simp [this]
    · rw [if_neg hc, upvote_completed_other _ _ _ hane, if_neg (by omega)]

/-- C2: applying any sequence of pairwise-distinct non-submitter voters, all
new to the poll, to a pending poll below threshold: after `k` votes the poll
is pending with exactly `k` more votes as long as the count is below the
configured threshold, and is completed from the step where the count reaches
the threshold onwards; each step while pending inserts the actor and responds
with the vote-added outcome, and each step after completion is rejected with
the already-completed outcome and no state change. -/
theorem c2_upvote_sequence (threshold author : Nat) (l₀ actors : List Nat)
    (hnd : actors.Nodup) (hna : author ∉ actors)
    (hdisj : ∀ a ∈ actors, a ∉ l₀) (hlen : l₀.length < threshold) :
    ∀ k, k ≤ actors.length →
      (runUpvotes threshold author (.pending l₀) (actors.take k) =
        if l₀.length + k < threshold then
          PollStatus.pending ((actors.take k).reverse ++ l₀)
        else .completed) ∧
      ((actors.take k).reverse ++ l₀).length = l₀.length + k ∧
      ∀ hk2 : k < actors.length,
        (upvote threshold author actors[k]
          (runUpvotes threshold author (.pending l₀) (actors.take k))).2 =
          if l₀.length + k < threshold then Outcome.voteAdded
          else Outcome.alreadyCompleted := by
  intro k hk
  have hstate := runUpvotes_formula threshold author l₀ actors hnd hna hdisj hlen k hk
  have hvlen : ((actors.take k).reverse ++ l₀).length = l₀.length + k := by
    simp [List.length_take, min_eq_left hk]
    omega
  refine ⟨hstate, hvlen, fun hk2 => ?_⟩
  have hane : actors[k] ≠ author := fun h => hna (h ▸ List.getElem_mem hk2)
  rw [hstate]
  by_cases hc : l₀.length + k < threshold
  · rw [if_pos hc, if_pos hc,
      upvote_pending_fresh _ _ _ _ hane (getElem_fresh l₀ actors hnd hdisj k hk2)]
    split_ifs <;> rfl
  · rw [if_neg hc, if_neg hc, upvote_completed_other _ _ _ hane]

/-- C2 witness: three distinct non-submitter voters on an empty pending poll
with threshold 2 leave it completed after all three interactions. -/
theorem c2_witness :
    runUpvotes 2 0 (PollStatus.pending []) ([1, 2, 3].take 3) =
      PollStatus.completed := by
  have h := (c2_upvote_sequence 2 0 [] [1, 2, 3] (by decide) (by decide)
    (by decide) (by decide) 3 (by decide)).1
  simpa using h

/-- Row of the `suggestions` table as seen by `pick_suggestion`
(`database.rs`); only the columns the query filters, groups and orders on are
modelled, plus `id` to identify the chosen row. `timestamp` is the
insertion-order column the `ORDER BY` uses. -/
structure SuggRow where
  id : Nat
  user_id : Nat
  timestamp : Nat
  internal : Bool
  approved : Bool
deriving DecidableEq

/-- The `WHERE internal = ? AND approved = TRUE` filter of `pick_suggestion`,
in table order. -/
def sqlFiltered (rows : List SuggRow) (flag : Bool) : List SuggRow :=
  rows.filter (fun r => r.internal == flag && r.approved)

/-- Group keys of `GROUP BY user_id` (one key per distinct submitter). -/
def keysOf (rows : List SuggRow) : List Nat :=
  (rows.map SuggRow.user_id).dedup

/-- Rows of one `GROUP BY user_id` group. -/
def groupOf (rows : List SuggRow) (u : Nat) : List SuggRow :=
  rows.filter (fun r => r.user_id == u)

/-- The groups produced by `GROUP BY user_id`. -/
def groupsOf (rows : List SuggRow) : List (List SuggRow) :=
  (keysOf rows).map (groupOf rows)

/-- First row with minimal `timestamp`, the row `ORDER BY timestamp LIMIT 1`
returns. -/
def minByTs : List SuggRow → Option SuggRow
  | [] => none
  | r :: rs =>
    match minByTs rs with
    | none => some r
    | some m => some (if r.timestamp ≤ m.timestamp then r else m)

/-- The `pick_suggestion` query of `database.rs`:
`WHERE internal = ? AND approved = TRUE GROUP BY user_id ORDER BY timestamp
LIMIT 1`. The query has no aggregate, so under SQLite semantics every
non-grouped column of a group is taken from one arbitrary row of that group;
`choice` models that unspecified per-group representative selection, and
`ORDER BY timestamp LIMIT 1` then returns the representative with the lowest
timestamp. -/
def pick_suggestion_query (choice : List SuggRow → Option SuggRow)
    (rows : List SuggRow) (flag : Bool) : Option SuggRow :=
  minByTs ((groupsOf (sqlFiltered rows flag)).filterMap choice)

/-- Written from the words of the specification, for comparison with
`pick_suggestion_query`: filter by approved and category, group by submitter,
take each group's earliest-submitted row, then take the overall earliest
among those per-submitter minima. -/
def pickSpecModel (rows : List SuggRow) (flag : Bool) : Option SuggRow :=
  minByTs ((groupsOf (sqlFiltered rows flag)).filterMap minByTs)

/-- Effect of `Data::pick_suggestion` (`types.rs`) on the suggestions table:
`database::pick_suggestion` issues only the SELECT above, and neither it nor
any caller on the announcement path (`Data::pick_suggestion`,
`post_announcement`) issues a DELETE, so on success the table is returned
unchanged next to the chosen row; `none` is the
`eyre!("no approved ... suggestion found")` failure. -/
def data_pick_suggestion (choice : List SuggRow → Option SuggRow)
    (rows : List SuggRow) (flag : Bool) : Option (SuggRow × List SuggRow) :=
  (pick_suggestion_query choice rows flag).map (fun r => (r, rows))



theorem minByTs_eq_none (l : List SuggRow) : minByTs l = none ↔ l = [] := by
  cases l with
  | nil => simp [minByTs]
  | cons r rs =>
    simp only [minByTs]
    cases minByTs rs <;> simp

theorem minByTs_mem (l : List SuggRow) (m : SuggRow) (h : minByTs l = some m) :
    m ∈ l := by
  induction l generalizing m with
  | nil => exact Option.noConfusion h
  | cons r rs ih =>
    simp only [minByTs] at h
    cases hrs : minByTs rs with
    | none =>
      rw [hrs] at h
      obtain rfl := Option.some.inj h
      exact List.mem_cons_self _ _
    | some m' =>
      rw [hrs] at h
      obtain rfl := Option.some.inj h
      split_ifs
      · exact List.mem_cons_self _ _
      · exact List.mem_cons_of_mem _ (ih m' hrs)

theorem minByTs_le (l : List SuggRow) (m : SuggRow) (h : minByTs l = some m) :
    ∀ x ∈ l, m.timestamp ≤ x.timestamp := by
  induction l generalizing m with
  | nil => exact Option.noConfusion h
  | cons r rs ih =>
    simp only [minByTs] at h
    cases hrs : minByTs rs with
    | none =>
      rw [hrs] at h
      obtain rfl := Option.some.inj h
      intro x hx
      have hrs' : rs = [] := (minByTs_eq_none rs).mp hrs
      subst hrs'
      rcases List.mem_cons.mp hx with rfl | hx'
      · exact le_refl _
      · cases hx'
    | some m' =>
      rw [hrs] at h
      obtain rfl := Option.some.inj h
      intro x hx
      have hm' := ih m' hrs
      rcases List.mem_cons.mp hx with rfl | hx'
      · split_ifs <;> omega
      · have hx2 := hm' x hx'
        split_ifs <;> omega

/-- Concrete suggestions table: submitter 10 has approved external rows at
timestamps 1 and 10, submitter 20 one at timestamp 5. -/
def rowsPickerCx : List SuggRow :=
  [⟨1, 10, 1, false, true⟩, ⟨2, 10, 10, false, true⟩, ⟨3, 20, 5, false, true⟩]

/-- Concrete suggestions table with a single approved external row. -/
def rowsPickOne : List SuggRow := [⟨1, 10, 1, false, true⟩]

/-- C4 counterexample: under the admissible SQLite representative selection
that takes the last row of each group, the query returns submitter 20's
timestamp-5 row while the claimed per-submitter-earliest algorithm returns
submitter 10's timestamp-1 row; the final conjunct checks that this
representative selection really picks a member of every group. -/
theorem c4_counterexample :
    pick_suggestion_query (fun g => g.getLast?) rowsPickerCx false =
      some ⟨3, 20, 5, false, true⟩ ∧
    pickSpecModel rowsPickerCx false = some ⟨1, 10, 1, false, true⟩ ∧
    (⟨3, 20, 5, false, true⟩ : SuggRow) ≠ ⟨1, 10, 1, false, true⟩ ∧
    (groupsOf (sqlFiltered rowsPickerCx false)).all
      (fun g =>
        match g.getLast? with
        | some r => decide (r ∈ g)
        | none => true) = true := by
  decide

/-- C4 as amended: the query returns the lowest-timestamp row among one
arbitrarily chosen representative per submitter group of the approved,
category-matching rows; it coincides with the per-submitter-earliest
algorithm of the specification exactly when the representative selection
happens to take each group's earliest row, which SQLite does not
guarantee. -/
theorem c4_query_grouped_min (rows : List SuggRow) (flag : Bool)
    (choice : List SuggRow → Option SuggRow) :
    ((∀ g, choice g = minByTs g) →
      pick_suggestion_query choice rows flag = pickSpecModel rows flag) ∧
    ((∀ g r, choice g = some r → r ∈ g) →
      ∀ r, pick_suggestion_query choice rows flag = some r →
        r ∈ sqlFiltered rows flag ∧
        ∀ r' ∈ (groupsOf (sqlFiltered rows flag)).filterMap choice,
          r.timestamp ≤ r'.timestamp) := by
  constructor
  · intro hch
    simp only [pick_suggestion_query, pickSpecModel]
    rw [List.filterMap_congr (fun g _ => hch g)]
  · intro hch r hr
    refine ⟨?_, minByTs_le _ _ hr⟩
    have hmem := minByTs_mem _ _ hr
    obtain ⟨g, hg, hgr⟩ := List.mem_filterMap.mp hmem
    obtain ⟨u, _, hgu⟩ := List.mem_map.mp hg
    have hrg : r ∈ g := hch g r hgr
    rw [← hgu] at hrg
    simp only [groupOf] at hrg
    exact List.mem_of_mem_filter hrg

/-- C4 witness: with the representative selection that does take each group's
earliest row, the query and the specified algorithm agree on the concrete
table. -/
theorem c4_witness :
    pick_suggestion_query minByTs rowsPickerCx false =
      pickSpecModel rowsPickerCx false :=
  (c4_query_grouped_min rowsPickerCx false minByTs).1 (fun _ => rfl)

/-- C1: evaluation of the pick path at a store holding exactly one approved
external suggestion: the pick succeeds and returns the store unchanged, with
the picked row still present (so a repeated pick returns it again instead of
finding it deleted), while a store whose only row is not approved fails with
the not-found error. The claimed permanent deletion of the chosen suggestion
does not happen: the deletion half of the claim fails on the code, the
not-found half holds. -/
theorem c1_pick_is_select_only :
    data_pick_suggestion (fun g => g.getLast?) rowsPickOne false =
      some (⟨1, 10, 1, false, true⟩, rowsPickOne) ∧
    (⟨1, 10, 1, false, true⟩ : SuggRow) ∈ rowsPickOne ∧
    data_pick_suggestion (fun g => g.getLast?) [⟨1, 10, 1, false, false⟩]
      false = none := by
  decide

/-- Success flags for the fallible calls made by the upvote branch of
`handle_poll_interaction`, in program order: `fetch_suggestion`,
`approve_suggestion`, `update_poll_status`, and the poll-message edit. -/
structure StoreOps where
  fetchOk : Bool
  approveOk : Bool
  updateOk : Bool
  editOk : Bool
deriving DecidableEq

/-- Effect order of the upvote branch of `handle_poll_interaction`
(`handlers.rs`) on a single poll, tracking the cached poll status and the
poll status recorded in the store. The cached `votes` set is mutated first
(`votes.insert`), the completed status is also written to the cache before
any store call, and only afterwards is `update_poll_status` issued; each
failing call aborts the handler through `?`, leaving the cache as already
mutated. The result is (cache status, stored status, response), with `none`
as the response when the handler returned an error. -/
def handleUpvoteEffects (threshold author actor : Nat)
    (cache store : PollStatus) (ops : StoreOps) :
    PollStatus × PollStatus × Option Outcome :=
  if actor ≠ author then
    match cache with
    | .pending votes =>
      if actor ∈ votes then (cache, store, some .alreadyVoted)
      else
        let cache1 : PollStatus :=
          if threshold ≤ votes.length + 1 then .completed
          else .pending (actor :: votes)
        if ops.fetchOk = false then (.pending (actor :: votes), store, none)
        else if threshold ≤ votes.length + 1 ∧ ops.approveOk = false then
          (cache1, store, none)
        else if ops.updateOk = false then (cache1, store, none)
        else if ops.editOk = false then (cache1, cache1, none)
        else (cache1, cache1, some .voteAdded)
    | .completed => (cache, store, some .alreadyCompleted)
    | .revoked => (cache, store, some .isRevokedMsg)
    | .vetoed => (cache, store, some .isVetoedMsg)
  else (cache, store, some .selfVote)

/-- C6 counterexample: threshold 2, submitter 0, voter 1, cache and store both
pending with no votes, and a failing `update_poll_status`: the handler aborts
with the cache already holding the inserted vote while the store still holds
the empty pending status, so the cache does not retain the pre-mutation
status and cache and store disagree. -/
theorem c6_counterexample :
    handleUpvoteEffects 3 0 1 (.pending []) (.pending [])
        ⟨true, true, false, true⟩ =
      (.pending [1], .pending [], none) ∧
    PollStatus.pending [1] ≠ PollStatus.pending [] := by
  decide

/-- C6 as amended: in the upvote operation the in-memory poll cache is
mutated before the store write; when `update_poll_status` fails (with the
preceding suggestion fetch, and approval when completing, succeeding) the
handler aborts with the store untouched and the cache already holding the
post-mutation status, which differs from the pre-mutation status — so a
store failure leaves the cache ahead of the store until the cache is rebuilt
from the store. -/
theorem c6_cache_mutated_before_store (threshold author actor : Nat)
    (votes : List Nat) (store : PollStatus) (ops : StoreOps)
    (hne : actor ≠ author) (hmem : actor ∉ votes)
    (hfetch : ops.fetchOk = true) (happrove : ops.approveOk = true)
    (hupd : ops.updateOk = false) :
    handleUpvoteEffects threshold author actor (.pending votes) store ops =
      ((if threshold ≤ votes.length + 1 then .completed
        else .pending (actor :: votes)), store, none) ∧
    (if threshold ≤ votes.length + 1 then (.completed : PollStatus)
      else .pending (actor :: votes)) ≠ .pending votes := by
  constructor
  · simp only [handleUpvoteEffects, if_pos hne, if_neg hmem, hfetch, happrove,
      hupd]
    split_ifs with h1 h2 h3 <;> simp_all
  · split_ifs with h1
    · intro hcontra
      exact PollStatus.noConfusion hcontra
    · intro hcontra
      have := PollStatus.pending.inj hcontra
      exact List.cons_ne_self actor votes this

/-- C6 witness: the amended statement at threshold 3, submitter 0, voter 1 on
an empty pending poll with only the store update failing. -/
theorem c6_witness :
    handleUpvoteEffects 3 0 1 (.pending []) (.pending [])
        ⟨true, true, false, true⟩ =
      (.pending [1], .pending [], none) := by
  have h := (c6_cache_mutated_before_store 3 0 1 [] (.pending [])
    ⟨true, true, false, true⟩ (by decide) (by decide) rfl rfl rfl).1
  simpa using h
